import Mathlib

set_option maxHeartbeats 2000000
set_option maxRecDepth 4000

/-- Python strings are modelled as lists of characters. -/
abbrev Str := List Char

/-- Characters removed by Python str.strip (ASCII whitespace). -/
def isSpaceChar (c : Char) : Bool :=
  c == ' ' || c == '\t' || c == '\n' || c == '\r' || c == '\x0b' || c == '\x0c'

/-- Python str.strip: drop whitespace from both ends. -/
def pyStrip (s : Str) : Str :=
  ((s.dropWhile isSpaceChar).reverse.dropWhile isSpaceChar).reverse

/-- Python str.lower on the ASCII letters that reach it here. -/
def toLowerChar (c : Char) : Char :=
  if 'A' ≤ c ∧ c ≤ 'Z' then Char.ofNat (c.toNat + 32) else c

def pyLower (s : Str) : Str := s.map toLowerChar

/-- The identifier alphabet [a-z0-9_] of the regex in sanitize_column_name. -/
def isAllowedChar (c : Char) : Bool :=
  (decide ('a' ≤ c) && decide (c ≤ 'z')) || (decide ('0' ≤ c) && decide (c ≤ '9'))
    || c == '_'

/-- Python str.isdigit on the ASCII characters that reach it here. -/
def isDigitChar (c : Char) : Bool := decide ('0' ≤ c) && decide (c ≤ '9')

/-- One step of re.sub of non-[a-z0-9_] characters by an underscore. -/
def subChar (c : Char) : Char := if isAllowedChar c then c else '_'

/-- re.sub of runs of underscores by a single underscore: an underscore
followed by another underscore is dropped, keeping the last of each run. -/
def collapseUnderscores : Str → Str
  | [] => []
  | [c] => [c]
  | c :: d :: rest =>
    if c == '_' && d == '_' then collapseUnderscores (d :: rest)
    else c :: collapseUnderscores (d :: rest)

/-- sanitize_column_name from create_table_and_insert.py: strip, empty to
_unnamed, lowercase, replace disallowed characters by underscore, collapse
underscore runs, strip leading underscores, empty to _unnamed, col_ prefix
for a leading digit, truncate to 63 characters. -/
def sanitize_column_name (raw : Str) : Str :=
  let name0 := pyStrip raw
  if name0 = [] then "_unnamed".data
  else
    let name1 := pyLower name0
    let name2 := name1.map subChar
    let name3 := collapseUnderscores name2
    let name4 := name3.dropWhile (fun c => c == '_')
    if name4 = [] then "_unnamed".data
    else
      let name5 := match name4 with
        | d :: rest => if isDigitChar d then "col_".data ++ d :: rest else d :: rest
        | [] => []
      name5.take 63

/-- The seen dictionary of build_column_map: insertion-ordered association
list from assigned identifier to its disambiguation counter. -/
abbrev Seen := List (Str × Nat)

/-- Keys of an association list (dictionary membership). -/
def akeys {α : Type} (s : List (Str × α)) : List Str := s.map Prod.fst

/-- Association-list lookup (Python dict lookup). -/
def alookup {α : Type} : List (Str × α) → Str → Option α
  | [], _ => none
  | (k, v) :: rest, key => if k = key then some v else alookup rest key

/-- Overwrite the value stored at an existing key (Python dict assignment on
a present key). -/
def aset {α : Type} : List (Str × α) → Str → α → List (Str × α)
  | [], _, _ => []
  | (k, v) :: rest, key, n => if k = key then (k, n) :: rest else (k, v) :: aset rest key n

/-- The disambiguation candidate of build_column_map: the base with an
underscore and the counter appended, re-truncated to 63 characters. -/
def candAt (base : Str) (n : Nat) : Str :=
  (base ++ '_' :: (Nat.repr n).data).take 63

/-- The while-loop of build_column_map searching for a candidate not in
seen, with explicit fuel since the source loop need not terminate. -/
def findCand (base : Str) : Nat → Seen → Nat → Option (Str × Nat)
  | 0, _, _ => none
  | fuel + 1, seen, n =>
    if candAt base n ∈ akeys seen then findCand base fuel seen (n + 1)
    else some (candAt base n, n)

/-- The header loop of build_column_map. -/
def bcmGo (fuel : Nat) : List Str → Seen → Option (List (Str × Str))
  | [], _ => some []
  | h :: rest, seen =>
    let base := sanitize_column_name h
    match alookup seen base with
    | none =>
      match bcmGo fuel rest (seen ++ [(base, 1)]) with
      | none => none
      | some r => some ((h, base) :: r)
    | some c =>
      match findCand base fuel seen (c + 1) with
      | none => none
      | some (cand, c2) =>
        match bcmGo fuel rest (aset seen base c2 ++ [(cand, 1)]) with
        | none => none
        | some r => some ((h, cand) :: r)

/-- build_column_map from create_table_and_insert.py, with fuel bounding the
iterations of the inner while loop ("id" is reserved up front). -/
def build_column_map (fuel : Nat) (headers : List Str) : Option (List (Str × Str)) :=
  bcmGo fuel headers [("id".data, 1)]

/-- A sheet row: insertion-ordered dictionary from header to cell string. -/
abbrev Row := List (Str × Str)

/-- Python row.get(key, default). -/
def dictGet (row : Row) (k : Str) (dflt : Str) : Str :=
  match alookup row k with
  | some v => v
  | none => dflt

/-- TEST_ENTRIES from create_table_and_insert.py. -/
def TEST_ENTRIES : List (Str × Str) :=
  [("john".data, "doe".data), ("test".data, "subject".data)]

/-- filter_rows from create_table_and_insert.py: drop known test entries and
rows missing both email and phone, keeping the rest in order. -/
def filter_rows : List Row → List Row
  | [] => []
  | row :: rest =>
    let given := pyLower (pyStrip (dictGet row "given_name".data []))
    let family := pyLower (pyStrip (dictGet row "family_name".data []))
    let email := pyStrip (dictGet row "email_address".data [])
    let phone := pyStrip (dictGet row "phone_number".data [])
    if (given, family) ∈ TEST_ENTRIES then filter_rows rest
    else if email = [] ∧ phone = [] then filter_rows rest
    else row :: filter_rows rest

/-- The identity pair of a row as the claim states it: given and family
name, each trimmed then lowercased, a missing field read as empty. -/
def identityPair (row : Row) : Str × Str :=
  (pyLower (pyStrip (dictGet row "given_name".data [])),
   pyLower (pyStrip (dictGet row "family_name".data [])))

/-- The keep condition of the claim: identity pair not in the denylist and
at least one trimmed contact field non-empty. -/
def keepRow (row : Row) : Bool :=
  !(decide (identityPair row ∈ TEST_ENTRIES)) &&
    (!(decide (pyStrip (dictGet row "email_address".data []) = [])) ||
     !(decide (pyStrip (dictGet row "phone_number".data []) = [])))

/-- The cell conversion inside rows_to_values: a missing key reads as the
empty string, and an empty string becomes None. -/
def cellOf (row : Row) (h : Str) : Option Str :=
  let v := dictGet row h []
  if v = [] then none else some v

/-- rows_to_values from create_table_and_insert.py. -/
def rows_to_values (rows : List Row) (headers : List Str) : List (List (Option Str)) :=
  rows.map (fun row => headers.map (cellOf row))

/-- The single-quote character, written by code point. -/
def quoteChar : Char := Char.ofNat 39

/-- Python str.replace of a single quote by two single quotes. -/
def escapeQuotes : Str → Str
  | [] => []
  | c :: rest =>
    if c = quoteChar then quoteChar :: quoteChar :: escapeQuotes rest
    else c :: escapeQuotes rest

/-- escape_sql_value from create_table_and_insert.py: None becomes NULL,
anything else is quoted with embedded quotes doubled. -/
def escape_sql_value : Option Str → Str
  | none => "NULL".data
  | some v => quoteChar :: escapeQuotes v ++ [quoteChar]

/-- build_values_clause from create_table_and_insert.py. -/
def build_values_clause (rows : List (List (Option Str))) : Str :=
  List.intercalate ",\n".data
    (rows.map (fun row =>
      '(' :: List.intercalate ", ".data (row.map escape_sql_value) ++ [')']))

/-- build_full_sql from create_table_and_insert.py: the drop, create and
insert statements joined by newlines, exactly as the source interpolates. -/
def build_full_sql (table : Str) (col_names : List Str) (value_rows : List (List (Option Str))) : Str :=
  let drop := "DROP TABLE IF EXISTS \"".data ++ table ++ "\";".data
  let cols_ddl := List.intercalate ",\n    ".data
    (col_names.map (fun col => '"' :: col ++ "\" TEXT".data))
  let create := "CREATE TABLE \"".data ++ table ++ "\" (\n    id SERIAL PRIMARY KEY,\n    ".data
    ++ cols_ddl ++ "\n);".data
  let cols_list := List.intercalate ", ".data (col_names.map (fun col => '"' :: col ++ ['"']))
  let values := build_values_clause value_rows
  let insert := "INSERT INTO \"".data ++ table ++ "\" (".data ++ cols_list
    ++ ") VALUES\n".data ++ values ++ [';']
  drop ++ '\n' :: create ++ '\n' :: insert

/-- Modelled from the spec of §4.3: the drop statement. -/
def spec_drop_statement (table : Str) : Str :=
  "DROP TABLE IF EXISTS \"".data ++ table ++ "\";".data

/-- Modelled from the spec of §4.3: one nullable TEXT column definition. -/
def spec_column_def (col : Str) : Str := '"' :: col ++ "\" TEXT".data

/-- Modelled from the spec of §4.3: the create statement, the fixed id
primary-key column followed by one TEXT column per identifier in order. -/
def spec_create_statement (table : Str) (cols : List Str) : Str :=
  "CREATE TABLE \"".data ++ table ++ "\" (\n    id SERIAL PRIMARY KEY,\n    ".data
    ++ List.intercalate ",\n    ".data (cols.map spec_column_def) ++ "\n);".data

/-- Modelled from the spec of §4.3: the value literal, null to the SQL null
literal, otherwise the string wrapped in quotes with each embedded quote
doubled (each quote rewritten to two quotes). -/
def spec_value_literal (v : Option Str) : Str :=
  match v with
  | none => "NULL".data
  | some s => quoteChar :: (s.flatMap (fun c => if c = quoteChar then [quoteChar, quoteChar] else [c])) ++ [quoteChar]

/-- Modelled from the spec of §4.3: one literal value tuple per row. -/
def spec_value_tuple (row : List (Option Str)) : Str :=
  '(' :: List.intercalate ", ".data (row.map spec_value_literal) ++ [')']

/-- Modelled from the spec of §4.3: the insert statement, columns addressed
explicitly by identifier in order, one tuple per row. -/
def spec_insert_statement (table : Str) (cols : List Str) (rows : List (List (Option Str))) : Str :=
  "INSERT INTO \"".data ++ table ++ "\" (".data
    ++ List.intercalate ", ".data (cols.map (fun col => '"' :: col ++ ['"']))
    ++ ") VALUES\n".data
    ++ List.intercalate ",\n".data (rows.map spec_value_tuple) ++ [';']

/-- Modelled from the spec of §4.3: the three statements in order, joined
into one text unit. -/
def build_statements_spec (table : Str) (cols : List Str) (rows : List (List (Option Str))) : Str :=
  spec_drop_statement table ++ '\n' :: spec_create_statement table cols
    ++ '\n' :: spec_insert_statement table cols rows

/-- An externally visible I/O action of a run: reading the intermediate row
file or calling the database endpoint. -/
inductive IOEvent
  | fileRead
  | networkCall
deriving DecidableEq

/-- Progress messages printed on stdout, by tag. -/
inductive Msg
  | emptyInput
  | filteredReport
  | emptyAfterFilter
  | mappingReport
  | sending
  | okInserted
  | mappedReport
  | upserting
  | doneCount
deriving DecidableEq

/-- Outcome of a run: exit zero, exit non-zero via an uncaught exception, or
no exit at all because the column-map loop diverges. -/
inductive RunResult
  | ok
  | err
  | hang
deriving DecidableEq

/-- What a run did: its I/O actions in order, its stdout messages in order,
and how it ended. -/
structure RunTrace where
  io : List IOEvent
  msgs : List Msg
  result : RunResult
deriving DecidableEq

/-- State of the intermediate file .tmp/sheet_data.json. -/
inductive FileState
  | missing
  | malformed
  | rows (rs : List Row)
deriving DecidableEq

/-- The environment settings read by create_table_and_insert.py; none models
an unset variable and an empty string is also falsy in the source checks. -/
structure CreateConfig where
  projectRef : Option Str
  managementKey : Option Str
  tableName : Option Str
deriving DecidableEq

/-- The environment settings read by upsert_to_supabase.py. -/
structure UpsertConfig where
  url : Option Str
  key : Option Str
  tableName : Option Str
  pk : Option Str
deriving DecidableEq

/-- Python truthiness of an optional environment string. -/
def present (o : Option Str) : Bool :=
  match o with
  | none => false
  | some s => !(s.isEmpty)

/-- main of create_table_and_insert.py: validate config, load rows, exit
zero when nothing is left, otherwise build the column map and send one SQL
request; netOk tells whether the Management API call succeeds. -/
def create_table_main (fuel : Nat) (cfg : CreateConfig) (file : FileState) (netOk : Bool) : RunTrace :=
  if present cfg.projectRef = false then ⟨[], [], .err⟩
  else if present cfg.managementKey = false then ⟨[], [], .err⟩
  else if present cfg.tableName = false then ⟨[], [], .err⟩
  else
    match file with
    | .missing => ⟨[], [], .err⟩
    | .malformed => ⟨[.fileRead], [], .err⟩
    | .rows rs =>
      if rs = [] then ⟨[.fileRead], [.emptyInput], .ok⟩
      else
        let kept := filter_rows rs
        if kept = [] then ⟨[.fileRead], [.filteredReport, .emptyAfterFilter], .ok⟩
        else
          let headers := match kept with
            | r :: _ => r.map Prod.fst
            | [] => []
          match build_column_map fuel headers with
          | none => ⟨[.fileRead], [.filteredReport], .hang⟩
          | some _ =>
            ⟨[.fileRead, .networkCall],
             [.filteredReport, .mappingReport, .sending] ++ (if netOk then [.okInserted] else []),
             if netOk then .ok else .err⟩

/-- main of upsert_to_supabase.py: table and primary-key settings are
checked first; the URL and key are only checked inside get_client, which
runs after the intermediate file has been read and mapped. -/
def upsert_main (cfg : UpsertConfig) (file : FileState) (netOk : Bool) : RunTrace :=
  if present cfg.tableName = false ∨ present cfg.pk = false then ⟨[], [], .err⟩
  else
    match file with
    | .missing => ⟨[], [], .err⟩
    | .malformed => ⟨[.fileRead], [], .err⟩
    | .rows rs =>
      if rs = [] then ⟨[.fileRead], [.emptyInput], .ok⟩
      else
        if present cfg.url = false ∨ present cfg.key = false then
          ⟨[.fileRead], [.mappedReport], .err⟩
        else
          ⟨[.fileRead, .networkCall],
           [.mappedReport, .upserting] ++ (if netOk then [.doneCount] else []),
           if netOk then .ok else .err⟩

lemma subChar_allowed (c : Char) : isAllowedChar (subChar c) = true := by
  unfold subChar
  split
  · assumption
  · decide

lemma collapse_subset : ∀ l : Str, collapseUnderscores l ⊆ l := by
  intro l
  induction l with
  | nil => simp [collapseUnderscores]
  | cons c t ih =>
    cases t with
    | nil => simp [collapseUnderscores]
    | cons d r =>
      simp only [collapseUnderscores]
      split
      · exact fun x hx => List.mem_cons_of_mem c (ih hx)
      · intro x hx
        rcases List.mem_cons.mp hx with h | h
        · exact h ▸ List.mem_cons_self x (d :: r)
        · exact List.mem_cons_of_mem c (ih h)

lemma dropWhile_head_false {p : Char → Bool} :
    ∀ (l : Str) (c : Char) (t : Str), l.dropWhile p = c :: t → p c = false := by
  intro l
  induction l with
  | nil => intro c t h; simp [List.dropWhile] at h
  | cons a r ih =>
    intro c t h
    by_cases hpa : p a
    · rw [List.dropWhile_cons_of_pos hpa] at h
      exact ih c t h
    · rw [List.dropWhile_cons_of_neg hpa] at h
      cases h
      exact Bool.eq_false_iff.mpr hpa

lemma allowed_head_lower (c : Char) (h1 : isAllowedChar c = true) (h2 : (c == '_') = false)
    (h3 : isDigitChar c = false) : 'a' ≤ c ∧ c ≤ 'z' := by
  simp only [isAllowedChar, Bool.or_eq_true, Bool.and_eq_true, decide_eq_true_eq,
    beq_iff_eq] at h1
  rcases h1 with (h | h) | h
  · exact h
  · exfalso
    have hd : isDigitChar c = true := by
      simp [isDigitChar, h.1, h.2]
    rw [hd] at h3
    exact absurd h3 (by simp)
  · exfalso
    subst h
    simp at h2

lemma col_prefix_allowed : ∀ c ∈ "col_".data, isAllowedChar c = true := by decide

/-- Claim C2 (amended): for every input string, sanitize_column_name returns
a string of length at most 63 made only of lowercase letters, digits and
underscores, and the result either is the placeholder _unnamed (which starts
with an underscore) or starts with a lowercase letter, hence never with a
digit; the function is total. -/
theorem C2_sanitize_shape (s : Str) :
    (sanitize_column_name s).length ≤ 63 ∧
    (∀ c ∈ sanitize_column_name s, isAllowedChar c = true) ∧
    (sanitize_column_name s = "_unnamed".data ∨
      ∃ c t, sanitize_column_name s = c :: t ∧ 'a' ≤ c ∧ c ≤ 'z') := by
  unfold sanitize_column_name
  by_cases h0 : pyStrip s = []
  · simp only [h0, if_pos]
    exact ⟨by decide, by decide, by simp⟩
  · simp only [if_neg h0]
    by_cases h4 : (collapseUnderscores ((pyLower (pyStrip s)).map subChar)).dropWhile
        (fun c => c == '_') = []
    · simp only [h4, if_pos]
      exact ⟨by decide, by decide, by simp⟩
    · simp only [if_neg h4]
      obtain ⟨d, rest, hd⟩ : ∃ d rest,
          (collapseUnderscores ((pyLower (pyStrip s)).map subChar)).dropWhile
            (fun c => c == '_') = d :: rest := by
        cases hcase : (collapseUnderscores ((pyLower (pyStrip s)).map subChar)).dropWhile
            (fun c => c == '_') with
        | nil => exact absurd hcase h4
        | cons d rest => exact ⟨d, rest, rfl⟩
      have hall : ∀ c ∈ d :: rest, isAllowedChar c = true := by
        rw [← hd]
        intro c hc
        have hc2 : c ∈ collapseUnderscores ((pyLower (pyStrip s)).map subChar) :=
          (List.dropWhile_suffix (fun c => c == '_')).sublist.subset hc
        have hc3 : c ∈ (pyLower (pyStrip s)).map subChar := collapse_subset _ hc2
        obtain ⟨a, _, ha⟩ := List.mem_map.mp hc3
        rw [← ha]
        exact subChar_allowed a
      have hdu : (d == '_') = false := dropWhile_head_false _ d rest hd
      rw [hd]
      by_cases hdig : isDigitChar d
      · simp only [hdig, if_pos]
        refine ⟨List.length_take_le 63 _, ?_, ?_⟩
        · intro c hc
          have hc2 : c ∈ "col_".data ++ d :: rest := List.take_subset 63 _ hc
          rcases List.mem_append.mp hc2 with h | h
          · exact col_prefix_allowed c h
          · exact hall c h
        · refine Or.inr ⟨'c', ('o' :: 'l' :: '_' :: d :: rest).take 62, ?_, by decide, by decide⟩
          rfl
      · simp only [if_neg hdig]
        refine ⟨List.length_take_le 63 _, ?_, ?_⟩
        · intro c hc
          exact hall c (List.take_subset 63 _ hc)
        · obtain ⟨hge, hle⟩ := allowed_head_lower d (hall d (List.mem_cons_self d rest)) hdu
            (Bool.eq_false_iff.mpr hdig)
          exact Or.inr ⟨d, rest.take 62, rfl, hge, hle⟩

/-- Claim C2 counterexample: sanitize_column_name on the empty string returns
the placeholder _unnamed, whose first character is an underscore, so the
result does start with an underscore on this input. -/
theorem C2_counterexample :
    sanitize_column_name [] = '_' :: "unnamed".data ∧
    (sanitize_column_name []).head? = some '_' := by
  constructor
  · decide
  · decide

lemma akeys_append {α : Type} (s t : List (Str × α)) : akeys (s ++ t) = akeys s ++ akeys t :=
  List.map_append Prod.fst s t

lemma akeys_aset {α : Type} : ∀ (s : List (Str × α)) (k : Str) (n : α), akeys (aset s k n) = akeys s := by
  intro s k n
  induction s with
  | nil => rfl
  | cons p rest ih =>
    obtain ⟨pk, pv⟩ := p
    simp only [aset]
    split
    · rfl
    · simpa [akeys] using ih

lemma alookup_none_not_mem {α : Type} : ∀ {s : List (Str × α)} {k : Str},
    alookup s k = none → k ∉ akeys s := by
  intro s
  induction s with
  | nil => intro k _ hk; simp [akeys] at hk
  | cons p rest ih =>
    obtain ⟨pk, pv⟩ := p
    intro k h hk
    simp only [alookup] at h
    split at h
    · exact absurd h (by simp)
    · rcases List.mem_cons.mp hk with h1 | h1
      · rename_i hne; exact hne h1.symm
      · exact ih h h1

lemma alookup_some_mem {α : Type} : ∀ {s : List (Str × α)} {k : Str} {v : α},
    alookup s k = some v → k ∈ akeys s := by
  intro s
  induction s with
  | nil => intro k v h; simp [alookup] at h
  | cons p rest ih =>
    obtain ⟨pk, pv⟩ := p
    intro k v h
    simp only [alookup] at h
    split at h
    · rename_i he; exact he ▸ List.mem_cons_self pk _
    · exact List.mem_cons_of_mem pk (ih h)

lemma alookup_not_mem_none {α : Type} : ∀ {s : List (Str × α)} {k : Str},
    k ∉ akeys s → alookup s k = none := by
  intro s k hk
  cases h : alookup s k with
  | none => rfl
  | some v => exact absurd (alookup_some_mem h) hk

lemma alookup_append_some {α : Type} : ∀ {s t : List (Str × α)} {k : Str} {v : α},
    alookup s k = some v → alookup (s ++ t) k = some v := by
  intro s
  induction s with
  | nil => intro t k v h; simp [alookup] at h
  | cons p rest ih =>
    obtain ⟨pk, pv⟩ := p
    intro t k v h
    simp only [alookup] at h ⊢
    split at h
    · rename_i he; simp only [he, if_pos]; exact h
    · rename_i he; rw [if_neg he]; exact ih h

lemma alookup_append_none {α : Type} : ∀ {s t : List (Str × α)} {k : Str},
    alookup s k = none → alookup (s ++ t) k = alookup t k := by
  intro s
  induction s with
  | nil => intro t k _; rfl
  | cons p rest ih =>
    obtain ⟨pk, pv⟩ := p
    intro t k h
    simp only [alookup] at h ⊢
    split at h
    · exact absurd h (by simp)
    · rename_i he; rw [if_neg he]; exact ih h

lemma alookup_aset_self {α : Type} : ∀ {s : List (Str × α)} {k : Str} {c : α} (n : α),
    alookup s k = some c → alookup (aset s k n) k = some n := by
  intro s
  induction s with
  | nil => intro k c n h; simp [alookup] at h
  | cons p rest ih =>
    obtain ⟨pk, pv⟩ := p
    intro k c n h
    simp only [alookup] at h
    split at h
    · rename_i he; simp [aset, he, alookup]
    · rename_i he
      simp only [aset]
      rw [if_neg he]
      simp only [alookup]
      rw [if_neg he]
      exact ih n h

lemma alookup_aset_ne {α : Type} : ∀ (s : List (Str × α)) (k : Str) (n : α) (k2 : Str),
    k2 ≠ k → alookup (aset s k n) k2 = alookup s k2 := by
  intro s k n k2 hne
  induction s with
  | nil => rfl
  | cons p rest ih =>
    obtain ⟨pk, pv⟩ := p
    simp only [aset]
    by_cases he : pk = k
    · rw [if_pos he]
      simp only [alookup]
      have hne2 : ¬ pk = k2 := fun hx => hne (hx ▸ he)
      rw [if_neg hne2, if_neg hne2]
    · rw [if_neg he]
      simp only [alookup]
      split
      · rfl
      · exact ih

lemma nodup_append_singleton {l : List Str} {a : Str} (h : l.Nodup) (h2 : a ∉ l) :
    (l ++ [a]).Nodup := by
  rw [List.nodup_append]
  exact ⟨h, List.nodup_singleton a, by simp [h2]⟩

lemma findCand_spec (base : Str) :
    ∀ (fuel : Nat), ∀ (n : Nat) (seen : Seen) (cand : Str) (c2 : Nat),
      findCand base fuel seen n = some (cand, c2) →
      n ≤ c2 ∧ cand = candAt base c2 ∧ cand ∉ akeys seen ∧
        ∀ m, n ≤ m → m < c2 → candAt base m ∈ akeys seen := by
  intro fuel
  induction fuel with
  | zero => intro n seen cand c2 h; simp [findCand] at h
  | succ f ih =>
    intro n seen cand c2 h
    simp only [findCand] at h
    split at h
    · rename_i hmem
      obtain ⟨h1, h2, h3, h4⟩ := ih (n + 1) seen cand c2 h
      refine ⟨by omega, h2, h3, ?_⟩
      intro m hm1 hm2
      by_cases hmn : m = n
      · subst hmn; exact hmem
      · exact h4 m (by omega) hm2
    · rename_i hmem
      cases h
      exact ⟨Nat.le_refl n, rfl, hmem, fun m hm1 hm2 => absurd hm1 (by omega)⟩

/-- The invariant of the seen dictionary across the header loop: every
stored counter is at least one, and for any key with counter c every
truncated candidate of that key with index between 2 and c is itself a key. -/
def SeenInv (seen : Seen) : Prop :=
  ∀ b c, alookup seen b = some c → 1 ≤ c ∧
    ∀ k, 2 ≤ k → k ≤ c → candAt b k ∈ akeys seen

lemma seenInv_insert_fresh (seen : Seen) (b : Str) (hinv : SeenInv seen)
    (hb : alookup seen b = none) : SeenInv (seen ++ [(b, 1)]) := by
  intro x c hx
  cases h1 : alookup seen x with
  | some v =>
    rw [alookup_append_some h1] at hx
    cases hx
    obtain ⟨hv1, hv2⟩ := hinv x c h1
    refine ⟨hv1, fun k hk2 hkc => ?_⟩
    rw [akeys_append]
    exact List.mem_append_left _ (hv2 k hk2 hkc)
  | none =>
    rw [alookup_append_none h1] at hx
    have hx2 : (if b = x then some (1 : Nat) else none) = some c := hx
    split at hx2
    · cases hx2
      exact ⟨Nat.le_refl 1, fun k hk2 hkc => absurd hkc (by omega)⟩
    · exact absurd hx2 (by simp)

lemma seenInv_update (seen : Seen) (base cand : Str) (c c2 : Nat)
    (hinv : SeenInv seen) (hlk : alookup seen base = some c)
    (hcand : cand = candAt base c2) (hc2 : c + 1 ≤ c2)
    (hfresh : cand ∉ akeys seen)
    (hmid : ∀ m, c + 1 ≤ m → m < c2 → candAt base m ∈ akeys seen) :
    SeenInv (aset seen base c2 ++ [(cand, 1)]) := by
  have hkeys : akeys (aset seen base c2 ++ [(cand, 1)]) = akeys seen ++ [cand] := by
    rw [akeys_append, akeys_aset]
    rfl
  intro x cx hx
  by_cases hxb : x = base
  · subst hxb
    have h1 : alookup (aset seen x c2) x = some c2 := alookup_aset_self c2 hlk
    rw [alookup_append_some h1] at hx
    cases hx
    have hc1 : 1 ≤ c := (hinv x c hlk).1
    refine ⟨by omega, fun k hk2 hkc => ?_⟩
    rw [hkeys]
    by_cases hkc2 : k = c2
    · subst hkc2
      rw [← hcand]
      exact List.mem_append_right _ (List.mem_singleton.mpr rfl)
    · rcases Nat.lt_or_ge k (c + 1) with hlt | hge
      · exact List.mem_append_left _ ((hinv x c hlk).2 k hk2 (by omega))
      · exact List.mem_append_left _ (hmid k hge (by omega))
  · have h1 : alookup (aset seen base c2) x = alookup seen x :=
      alookup_aset_ne seen base c2 x hxb
    cases h2 : alookup seen x with
    | some v =>
      rw [alookup_append_some (h1.trans h2)] at hx
      cases hx
      obtain ⟨hv1, hv2⟩ := hinv x cx h2
      refine ⟨hv1, fun k hk2 hkc => ?_⟩
      rw [hkeys]
      exact List.mem_append_left _ (hv2 k hk2 hkc)
    | none =>
      rw [alookup_append_none (h1.trans h2)] at hx
      have hx2 : (if cand = x then some (1 : Nat) else none) = some cx := hx
      split at hx2
      · cases hx2
        exact ⟨Nat.le_refl 1, fun k hk2 hkc => absurd hkc (by omega)⟩
      · exact absurd hx2 (by simp)

lemma bcmGo_nil (fuel : Nat) (seen : Seen) : bcmGo fuel [] seen = some [] := rfl

lemma bcmGo_cons_none (fuel : Nat) (hd : Str) (tl : List Str) (seen : Seen)
    (h : alookup seen (sanitize_column_name hd) = none) :
    bcmGo fuel (hd :: tl) seen =
      match bcmGo fuel tl (seen ++ [(sanitize_column_name hd, 1)]) with
      | none => none
      | some r => some ((hd, sanitize_column_name hd) :: r) := by
  simp only [bcmGo, h]

lemma bcmGo_cons_some_none (fuel : Nat) (hd : Str) (tl : List Str) (seen : Seen) (c : Nat)
    (h : alookup seen (sanitize_column_name hd) = some c)
    (h2 : findCand (sanitize_column_name hd) fuel seen (c + 1) = none) :
    bcmGo fuel (hd :: tl) seen = none := by
  simp only [bcmGo, h, h2]

lemma bcmGo_cons_some2 (fuel : Nat) (hd : Str) (tl : List Str) (seen : Seen)
    (c : Nat) (cand : Str) (c2 : Nat)
    (h : alookup seen (sanitize_column_name hd) = some c)
    (h2 : findCand (sanitize_column_name hd) fuel seen (c + 1) = some (cand, c2)) :
    bcmGo fuel (hd :: tl) seen =
      match bcmGo fuel tl (aset seen (sanitize_column_name hd) c2 ++ [(cand, 1)]) with
      | none => none
      | some r => some ((hd, cand) :: r) := by
  simp only [bcmGo, h, h2]

/-- The disambiguation behaviour the claim describes, read along the output
list: A is the set of identifiers already assigned (the reserved primary-key
identifier up front); a header whose sanitized base is unassigned gets the
base, otherwise it gets the re-truncated candidate with the smallest index
n at least 2 whose candidate is not already assigned. -/
def DedupSpec : List Str → List (Str × Str) → Prop
  | _, [] => True
  | A, (h, s) :: rest =>
    ((sanitize_column_name h ∉ A ∧ s = sanitize_column_name h) ∨
      (sanitize_column_name h ∈ A ∧ ∃ n, 2 ≤ n ∧ s = candAt (sanitize_column_name h) n ∧
        candAt (sanitize_column_name h) n ∉ A ∧
        ∀ m, 2 ≤ m → m < n → candAt (sanitize_column_name h) m ∈ A)) ∧
    DedupSpec (A ++ [s]) rest

lemma bcmGo_spec : ∀ (headers : List Str) (fuel : Nat) (seen : Seen) (res : List (Str × Str)),
    SeenInv seen → bcmGo fuel headers seen = some res →
    res.map Prod.fst = headers ∧ DedupSpec (akeys seen) res ∧
    ((akeys seen).Nodup → (akeys seen ++ res.map Prod.snd).Nodup) := by
  intro headers
  induction headers with
  | nil =>
    intro fuel seen res _ hrun
    rw [bcmGo_nil] at hrun
    cases hrun
    exact ⟨rfl, trivial, fun hn => by simpa using hn⟩
  | cons hd tl ih =>
    intro fuel seen res hinv hrun
    cases hlk : alookup seen (sanitize_column_name hd) with
    | none =>
      rw [bcmGo_cons_none fuel hd tl seen hlk] at hrun
      cases hrec : bcmGo fuel tl (seen ++ [(sanitize_column_name hd, 1)]) with
      | none => rw [hrec] at hrun; cases hrun
      | some r =>
        rw [hrec] at hrun
        cases hrun
        have hinv2 : SeenInv (seen ++ [(sanitize_column_name hd, 1)]) :=
          seenInv_insert_fresh seen _ hinv hlk
        obtain ⟨ha, hb, hc⟩ := ih fuel _ r hinv2 hrec
        have hkeys2 : akeys (seen ++ [(sanitize_column_name hd, 1)]) =
            akeys seen ++ [sanitize_column_name hd] := by
          rw [akeys_append]
          rfl
        have hnotmem : sanitize_column_name hd ∉ akeys seen := alookup_none_not_mem hlk
        refine ⟨by simpa using ha, ⟨Or.inl ⟨hnotmem, rfl⟩, ?_⟩, ?_⟩
        · rw [← hkeys2]
          exact hb
        · intro hnd
          have hnd2 : (akeys (seen ++ [(sanitize_column_name hd, 1)])).Nodup := by
            rw [hkeys2]
            exact nodup_append_singleton hnd hnotmem
          have hfin := hc hnd2
          rw [hkeys2, List.append_assoc] at hfin
          simpa using hfin
    | some c =>
      cases hfc : findCand (sanitize_column_name hd) fuel seen (c + 1) with
      | none =>
        rw [bcmGo_cons_some_none fuel hd tl seen c hlk hfc] at hrun
        cases hrun
      | some p =>
        obtain ⟨cand, c2⟩ := p
        rw [bcmGo_cons_some2 fuel hd tl seen c cand c2 hlk hfc] at hrun
        cases hrec : bcmGo fuel tl (aset seen (sanitize_column_name hd) c2 ++ [(cand, 1)]) with
        | none => rw [hrec] at hrun; cases hrun
        | some r =>
          rw [hrec] at hrun
          cases hrun
          obtain ⟨hfc1, hfc2, hfc3, hfc4⟩ := findCand_spec _ fuel (c + 1) seen cand c2 hfc
          have hc1 : 1 ≤ c := (hinv _ c hlk).1
          have hinv2 : SeenInv (aset seen (sanitize_column_name hd) c2 ++ [(cand, 1)]) :=
            seenInv_update seen _ cand c c2 hinv hlk hfc2 hfc1 hfc3 hfc4
          obtain ⟨ha, hb, hc'⟩ := ih fuel _ r hinv2 hrec
          have hkeys2 : akeys (aset seen (sanitize_column_name hd) c2 ++ [(cand, 1)]) =
              akeys seen ++ [cand] := by
            rw [akeys_append, akeys_aset]
            rfl
          have hmem : sanitize_column_name hd ∈ akeys seen := alookup_some_mem hlk
          have hmids : ∀ m, 2 ≤ m → m < c2 →
              candAt (sanitize_column_name hd) m ∈ akeys seen := by
            intro m hm2 hmc2
            rcases Nat.lt_or_ge m (c + 1) with hlt | hge
            · exact (hinv _ c hlk).2 m hm2 (by omega)
            · exact hfc4 m hge hmc2
          refine ⟨by simpa using ha,
            ⟨Or.inr ⟨hmem, c2, by omega, hfc2, hfc2 ▸ hfc3, hmids⟩, ?_⟩, ?_⟩
          · rw [← hkeys2]
            exact hb
          · intro hnd
            have hnd2 : (akeys (aset seen (sanitize_column_name hd) c2 ++ [(cand, 1)])).Nodup := by
              rw [hkeys2]
              exact nodup_append_singleton hnd hfc3
            have hfin := hc' hnd2
            rw [hkeys2, List.append_assoc] at hfin
            simpa using hfin

lemma build_column_map_spec (fuel : Nat) (headers : List Str) (res : List (Str × Str))
    (h : build_column_map fuel headers = some res) :
    res.map Prod.fst = headers ∧ DedupSpec ["id".data] res ∧
    ("id".data :: res.map Prod.snd).Nodup := by
  have hinv : SeenInv [("id".data, 1)] := by
    intro b c hb
    have hb2 : (if "id".data = b then some (1 : Nat) else none) = some c := hb
    split at hb2
    · cases hb2
      exact ⟨Nat.le_refl 1, fun k hk2 hkc => absurd hkc (by omega)⟩
    · exact absurd hb2 (by simp)
  obtain ⟨ha, hb, hc⟩ := bcmGo_spec headers fuel [("id".data, 1)] res hinv h
  have hkeys : akeys [(("id".data : Str), (1 : Nat))] = ["id".data] := rfl
  rw [hkeys] at hb hc
  exact ⟨ha, hb, by simpa using hc (by simp)⟩

def emailHeaders : List Str := ["Email".data, "email".data, "EMAIL".data]

def emailResult : List (Str × Str) :=
  [("Email".data, "email".data), ("email".data, "email_2".data), ("EMAIL".data, "email_3".data)]

/-- Claim C1: whenever build_column_map returns, the sanitized identifiers
of the returned pairs are pairwise distinct and none is the reserved "id";
a header whose sanitized base is already assigned (with "id" reserved up
front) gets the base with an underscore and the smallest integer n at least
2 appended whose candidate, re-truncated to 63 characters, is not already
assigned; and the Email example yields email, email_2, email_3. -/
theorem C1_build_column_map_dedup (fuel : Nat) (headers : List Str) (res : List (Str × Str))
    (h : build_column_map fuel headers = some res) :
    (res.map Prod.snd).Nodup ∧
    (∀ p ∈ res, p.2 ≠ "id".data) ∧
    DedupSpec ["id".data] res ∧
    build_column_map 8 emailHeaders = some emailResult := by
  obtain ⟨_, hded, hnd⟩ := build_column_map_spec fuel headers res h
  rw [List.nodup_cons] at hnd
  obtain ⟨hid, hsnd⟩ := hnd
  refine ⟨hsnd, ?_, hded, by decide⟩
  intro p hp hpid
  exact hid (List.mem_map.mpr ⟨p, hp, hpid⟩)

/-- Witness for C1: the theorem applied to the Email example. -/
theorem C1_witness :
    build_column_map 8 emailHeaders = some emailResult ∧
    ((emailResult.map Prod.snd).Nodup ∧
      (∀ p ∈ emailResult, p.2 ≠ "id".data) ∧
      DedupSpec ["id".data] emailResult ∧
      build_column_map 8 emailHeaders = some emailResult) :=
  ⟨by decide, C1_build_column_map_dedup 8 emailHeaders emailResult (by decide)⟩

/-- Lookup of a sanitized name among the recorded pairs, first match wins. -/
def lookupBySanitized : List (Str × Str) → Str → Option Str
  | [], _ => none
  | (o, s) :: rest, key => if s = key then some o else lookupBySanitized rest key

lemma lookupBySanitized_of_nodup : ∀ (l : List (Str × Str)) (o s : Str),
    (l.map Prod.snd).Nodup → (o, s) ∈ l → lookupBySanitized l s = some o := by
  intro l
  induction l with
  | nil => intro o s _ h; simp at h
  | cons p rest ih =>
    obtain ⟨po, ps⟩ := p
    intro o s hnd hmem
    simp only [List.map_cons, List.nodup_cons] at hnd
    obtain ⟨hps, hnd2⟩ := hnd
    rcases List.mem_cons.mp hmem with he | he
    · cases he
      simp [lookupBySanitized]
    · have hsne : ¬ ps = s := by
        intro hx
        rw [hx] at hps
        exact hps (List.mem_map.mpr ⟨(o, s), he, rfl⟩)
      simp only [lookupBySanitized]
      rw [if_neg hsne]
      exact ih o s hnd2 he

/-- Claim C8: whenever build_column_map returns, the recorded pairs are
right-invertible: looking any sanitized name up among the pairs recovers
the original header it was derived from. -/
theorem C8_roundtrip (fuel : Nat) (headers : List Str) (res : List (Str × Str))
    (h : build_column_map fuel headers = some res) :
    ∀ o s, (o, s) ∈ res → lookupBySanitized res s = some o := by
  obtain ⟨_, _, hnd⟩ := build_column_map_spec fuel headers res h
  rw [List.nodup_cons] at hnd
  intro o s hmem
  exact lookupBySanitized_of_nodup res o s hnd.2 hmem

/-- Witness for C8: recovering the original header of email_2. -/
theorem C8_witness :
    build_column_map 8 emailHeaders = some emailResult ∧
    lookupBySanitized emailResult "email_2".data = some "email".data :=
  ⟨by decide, C8_roundtrip 8 emailHeaders emailResult (by decide) "email".data
    "email_2".data (by decide)⟩

/-- A 63-character header: its sanitized form has the full identifier
length, so every re-truncated disambiguation candidate equals it. -/
def longHeader : Str := List.replicate 63 'a'

lemma sanitize_longHeader : sanitize_column_name longHeader = longHeader := by decide

lemma candAt_longHeader (n : Nat) : candAt longHeader n = longHeader := by
  unfold candAt
  have h1 : longHeader.length = 63 := by simp [longHeader]
  calc (longHeader ++ '_' :: (Nat.repr n).data).take 63
      = (longHeader ++ '_' :: (Nat.repr n).data).take longHeader.length := by rw [h1]
    _ = longHeader := List.take_left _ _

lemma findCand_longHeader_none (seen : Seen) (hmem : longHeader ∈ akeys seen) :
    ∀ fuel n, findCand longHeader fuel seen n = none := by
  intro fuel
  induction fuel with
  | zero => intro n; rfl
  | succ f ih =>
    intro n
    simp only [findCand, candAt_longHeader]
    rw [if_pos hmem]
    exact ih (n + 1)

lemma bcm_longHeader_none : ∀ fuel, build_column_map fuel [longHeader, longHeader] = none := by
  intro fuel
  unfold build_column_map
  have h1 : alookup [(("id".data : Str), (1 : Nat))] (sanitize_column_name longHeader) = none := by
    rw [sanitize_longHeader]
    decide
  rw [bcmGo_cons_none fuel longHeader [longHeader] [("id".data, 1)] h1]
  have h2 : alookup ([(("id".data : Str), (1 : Nat))] ++ [(sanitize_column_name longHeader, 1)])
      (sanitize_column_name longHeader) = some 1 := by
    rw [sanitize_longHeader]
    decide
  have h3 : findCand (sanitize_column_name longHeader) fuel
      ([(("id".data : Str), (1 : Nat))] ++ [(sanitize_column_name longHeader, 1)]) (1 + 1) = none := by
    rw [sanitize_longHeader]
    refine findCand_longHeader_none _ ?_ fuel (1 + 1)
    decide
  rw [bcmGo_cons_some_none fuel longHeader [] _ 1 h2 h3]

/-- Claim C3 counterexample: on two copies of a 63-character header the
re-truncated candidate always equals the base, which is already assigned,
so the disambiguation loop never exits: build_column_map returns for no
amount of fuel, meaning the source function does not terminate there. -/
theorem C3_counterexample :
    ¬ ∃ fuel res, build_column_map fuel [longHeader, longHeader] = some res := by
  rintro ⟨fuel, res, h⟩
  rw [bcm_longHeader_none fuel] at h
  cases h

/-- Claim C3 (amended): build_column_map is a pure function of the header
sequence and, whenever it returns, it returns exactly one (original,
sanitized) pair per input header with output order matching input header
order; it does not terminate on every input, two identical 63-character
headers making the disambiguation loop run forever. -/
theorem C3_shape :
    (∀ fuel headers res, build_column_map fuel headers = some res →
      res.map Prod.fst = headers) ∧
    (∀ fuel, build_column_map fuel [longHeader, longHeader] = none) :=
  ⟨fun fuel headers res h => (build_column_map_spec fuel headers res h).1,
   bcm_longHeader_none⟩

/-- Witness for C3: the amended theorem applied to the Email example. -/
theorem C3_witness :
    build_column_map 8 emailHeaders = some emailResult ∧
    emailResult.map Prod.fst = emailHeaders :=
  ⟨by decide, C3_shape.1 8 emailHeaders emailResult (by decide)⟩

lemma filter_rows_eq_filter : ∀ rows : List Row, filter_rows rows = rows.filter keepRow := by
  intro rows
  induction rows with
  | nil => rfl
  | cons row rest ih =>
    simp only [filter_rows]
    split
    · rename_i h1
      have hk : keepRow row = false := by
        unfold keepRow identityPair
        simp [h1]
      rw [List.filter_cons, hk]
      simpa using ih
    · rename_i h1
      split
      · rename_i h2
        have hk : keepRow row = false := by
          unfold keepRow identityPair
          simp [h2.1, h2.2]
        rw [List.filter_cons, hk]
        simpa using ih
      · rename_i h2
        have hk : keepRow row = true := by
          unfold keepRow identityPair
          by_cases he : pyStrip (dictGet row "email_address".data []) = []
          · have hp : ¬ pyStrip (dictGet row "phone_number".data []) = [] :=
              fun hp => h2 ⟨he, hp⟩
            simp [h1, he, hp]
          · simp [h1, he]
        rw [List.filter_cons, hk]
        simp [ih]

def exRow1 : Row :=
  [("given_name".data, "John".data), ("family_name".data, "Doe".data),
   ("email_address".data, ([] : Str)), ("phone_number".data, ([] : Str))]

def exRow2 : Row :=
  [("given_name".data, "A".data), ("family_name".data, "B".data),
   ("email_address".data, "a@b.com".data), ("phone_number".data, ([] : Str))]

/-- Claim C6: filter_rows keeps a row if and only if its identity pair,
trimmed and lowercased with missing fields read as empty, is not in the
fixed denylist of test identities and at least one trimmed contact field is
non-empty; on the two-row example only the second row survives. -/
theorem C6_filter_rows_keep :
    (∀ rows : List Row, filter_rows rows = rows.filter keepRow) ∧
    filter_rows [exRow1, exRow2] = [exRow2] :=
  ⟨filter_rows_eq_filter, by decide⟩

/-- Claim C9: filter_rows is idempotent and the surviving rows form a
sublist of the input, preserving their relative order. -/
theorem C9_filter_rows_idem (rows : List Row) :
    filter_rows (filter_rows rows) = filter_rows rows ∧
    (filter_rows rows).Sublist rows := by
  constructor
  · rw [filter_rows_eq_filter (filter_rows rows), filter_rows_eq_filter rows]
    exact List.filter_eq_self.mpr fun a ha => (List.mem_filter.mp ha).2
  · rw [filter_rows_eq_filter rows]
    exact List.filter_sublist rows

/-- Claim C10: rows_to_values yields one value list per row whose length is
the header count; a key absent from a row behaves exactly like an
empty-string value (both become none); keys outside the header list are
ignored; and filter_rows reads missing contact fields as empty, so a row
lacking both contact keys is dropped. -/
theorem C10_missing_keys :
    (∀ (rows : List Row) (headers : List Str),
      (rows_to_values rows headers).length = rows.length ∧
      ∀ vs ∈ rows_to_values rows headers, vs.length = headers.length) ∧
    (∀ (row : Row) (h : Str), alookup row h = none → cellOf row h = none) ∧
    (∀ (row : Row) (h : Str), alookup row h = some [] → cellOf row h = none) ∧
    (∀ (headers : List Str) (row row2 : Row),
      (∀ h ∈ headers, alookup row h = alookup row2 h) →
      headers.map (cellOf row) = headers.map (cellOf row2)) ∧
    (∀ (rows : List Row) (row : Row),
      alookup row "email_address".data = none → alookup row "phone_number".data = none →
      row ∉ filter_rows rows) ∧
    (∀ row : Row, alookup row "given_name".data = none → (identityPair row).1 = []) := by
  refine ⟨?_, ?_, ?_, ?_, ?_, ?_⟩
  · intro rows headers
    constructor
    · simp [rows_to_values]
    · intro vs hvs
      obtain ⟨row, _, hrow⟩ := List.mem_map.mp hvs
      rw [← hrow]
      simp
  · intro row h hnone
    simp [cellOf, dictGet, hnone]
  · intro row h hempty
    simp [cellOf, dictGet, hempty]
  · intro headers row row2 hsame
    refine List.map_congr_left fun h hmem => ?_
    simp [cellOf, dictGet, hsame h hmem]
  · intro rows row hem hph hmem
    rw [filter_rows_eq_filter] at hmem
    have hkeep : keepRow row = true := (List.mem_filter.mp hmem).2
    unfold keepRow at hkeep
    rw [show dictGet row "email_address".data [] = [] from by simp [dictGet, hem],
      show dictGet row "phone_number".data [] = [] from by simp [dictGet, hph]] at hkeep
    simp [pyStrip] at hkeep
  · intro row hnone
    simp [identityPair, dictGet, hnone, pyStrip, pyLower]

/-- Witness for C10: a row carrying only a name and no contact keys is
dropped by filter_rows. -/
theorem C10_witness :
    alookup [("given_name".data, "X".data)] "email_address".data = none ∧
    alookup [("given_name".data, "X".data)] "phone_number".data = none ∧
    [("given_name".data, "X".data)] ∉ filter_rows [[("given_name".data, "X".data)]] :=
  ⟨by decide, by decide,
    C10_missing_keys.2.2.2.2.1 [[("given_name".data, "X".data)]]
      [("given_name".data, "X".data)] (by decide) (by decide)⟩

lemma escapeQuotes_eq_flatMap : ∀ s : Str,
    escapeQuotes s =
      s.flatMap (fun c => if c = quoteChar then [quoteChar, quoteChar] else [c]) := by
  intro s
  induction s with
  | nil => rfl
  | cons c rest ih =>
    simp only [escapeQuotes, List.flatMap_cons]
    by_cases hc : c = quoteChar
    · rw [if_pos hc, if_pos hc, ih]
      rfl
    · rw [if_neg hc, if_neg hc, ih]
      rfl

lemma escape_eq_spec : escape_sql_value = spec_value_literal := by
  funext v
  cases v with
  | none => rfl
  | some s =>
    simp only [escape_sql_value, spec_value_literal, escapeQuotes_eq_flatMap]

/-- A value rendered single-quoted, for stating the example expectations. -/
def quoted (s : Str) : Str := quoteChar :: s ++ [quoteChar]

/-- Claim C4: build_full_sql produces in order the drop statement, the
create statement made of the fixed id primary-key column followed by one
nullable TEXT column per identifier in input order, and the insert
statement addressing the columns by identifier in the same order, None
rendered as the SQL NULL literal and any other value rendered quoted with
each embedded quote doubled; on the people example the second value tuple
of the insert carries the NULL literal in its first field. -/
theorem C4_build_full_sql :
    (∀ (table : Str) (cols : List Str) (rows : List (List (Option Str))),
      build_full_sql table cols rows = build_statements_spec table cols rows) ∧
    build_values_clause [[some "Ann".data, some "a@x.com".data], [none, some "b@x.com".data]] =
      '(' :: quoted "Ann".data ++ ", ".data ++ quoted "a@x.com".data ++ [')']
        ++ ",\n(NULL, ".data ++ quoted "b@x.com".data ++ [')'] := by
  constructor
  · intro table cols rows
    simp only [build_full_sql, build_statements_spec, spec_drop_statement,
      spec_create_statement, spec_insert_statement, spec_column_def, spec_value_tuple,
      build_values_clause, escape_eq_spec]
    rfl
  · decide

/-- Claim C5 counterexample: in the upsert script, with the URL setting
absent but table and primary key present, the run reads the intermediate
row file before failing, so a missing required setting does not always fail
before I/O. -/
theorem C5_counterexample :
    present (UpsertConfig.mk none (some "k".data) (some "t".data) (some "c".data)).url = false ∧
    upsert_main (UpsertConfig.mk none (some "k".data) (some "t".data) (some "c".data))
        (.rows [[("email_address".data, "x".data)]]) true =
      ⟨[.fileRead], [.mappedReport], .err⟩ ∧
    ([IOEvent.fileRead] : List IOEvent) ≠ [] := by
  refine ⟨rfl, ?_, by decide⟩
  decide

/-- Claim C5 (amended): in the create/replace script a missing required
setting fails with exit non-zero and no I/O at all; in the upsert script a
missing table or primary-key setting fails with no I/O, while a missing URL
or key never lets a network call happen but is only detected after the row
file has been read: when rows remain, the run exits non-zero having
performed exactly the file read. -/
theorem C5_config_checks :
    (∀ (fuel : Nat) (cfg : CreateConfig) (file : FileState) (netOk : Bool),
      (present cfg.projectRef = false ∨ present cfg.managementKey = false ∨
        present cfg.tableName = false) →
      create_table_main fuel cfg file netOk = ⟨[], [], .err⟩) ∧
    (∀ (cfg : UpsertConfig) (file : FileState) (netOk : Bool),
      (present cfg.tableName = false ∨ present cfg.pk = false) →
      upsert_main cfg file netOk = ⟨[], [], .err⟩) ∧
    (∀ (cfg : UpsertConfig) (file : FileState) (netOk : Bool),
      (present cfg.url = false ∨ present cfg.key = false) →
      IOEvent.networkCall ∉ (upsert_main cfg file netOk).io ∧
      ∀ rs, file = .rows rs → rs ≠ [] → present cfg.tableName = true →
        present cfg.pk = true →
        upsert_main cfg file netOk = ⟨[.fileRead], [.mappedReport], .err⟩) := by
  refine ⟨?_, ?_, ?_⟩
  · intro fuel cfg file netOk h
    unfold create_table_main
    by_cases h1 : present cfg.projectRef = false
    · rw [if_pos h1]
    · rw [if_neg h1]
      by_cases h2 : present cfg.managementKey = false
      · rw [if_pos h2]
      · rw [if_neg h2]
        have h3 : present cfg.tableName = false := by
          rcases h with h | h | h
          · exact absurd h h1
          · exact absurd h h2
          · exact h
        rw [if_pos h3]
  · intro cfg file netOk h
    unfold upsert_main
    rw [if_pos h]
  · intro cfg file netOk h
    constructor
    · unfold upsert_main
      by_cases h1 : present cfg.tableName = false ∨ present cfg.pk = false
      · rw [if_pos h1]
        simp
      · rw [if_neg h1]
        cases file with
        | missing => simp
        | malformed => simp
        | rows rs =>
          by_cases h2 : rs = []
          · simp [h2]
          · simp [h2, h]
    · intro rs hfile hrs htab hpk
      subst hfile
      unfold upsert_main
      have h1 : ¬ (present cfg.tableName = false ∨ present cfg.pk = false) := by
        rw [htab, hpk]
        simp
      rw [if_neg h1]
      simp [hrs, h]

/-- Witness for C5: the amended theorem applied to a fully missing
create-script configuration and to the upsert run with a missing URL. -/
theorem C5_witness :
    create_table_main 0 ⟨none, none, none⟩ .missing true = ⟨[], [], .err⟩ ∧
    upsert_main ⟨none, some "k".data, some "t".data, some "c".data⟩
        (.rows [[("email_address".data, "x".data)]]) true =
      ⟨[.fileRead], [.mappedReport], .err⟩ :=
  ⟨C5_config_checks.1 0 ⟨none, none, none⟩ .missing true (Or.inl rfl),
   (C5_config_checks.2.2 ⟨none, some "k".data, some "t".data, some "c".data⟩
      (.rows [[("email_address".data, "x".data)]]) true (Or.inl rfl)).2
      [[("email_address".data, "x".data)]] rfl (by decide) rfl rfl⟩

/-- Claim C7: in the create/replace driver with a complete configuration,
if zero rows remain after loading or after filtering, the run exits zero
after printing a message and no database call is attempted. -/
theorem C7_empty_is_success (fuel : Nat) (cfg : CreateConfig) (rs : List Row) (netOk : Bool)
    (hp : present cfg.projectRef = true) (hm : present cfg.managementKey = true)
    (ht : present cfg.tableName = true)
    (hempty : rs = [] ∨ filter_rows rs = []) :
    (create_table_main fuel cfg (.rows rs) netOk).result = .ok ∧
    IOEvent.networkCall ∉ (create_table_main fuel cfg (.rows rs) netOk).io ∧
    (create_table_main fuel cfg (.rows rs) netOk).msgs ≠ [] := by
  rcases hempty with he | he
  · subst he
    simp [create_table_main, hp, hm, ht]
  · by_cases hrs : rs = []
    · subst hrs
      simp [create_table_main, hp, hm, ht]
    · simp [create_table_main, hp, hm, ht, hrs, he]

/-- Witness for C7: an empty row file with a complete configuration. -/
theorem C7_witness :
    (create_table_main 0 ⟨some "p".data, some "k".data, some "t".data⟩ (.rows []) true).result
        = .ok ∧
    IOEvent.networkCall ∉
      (create_table_main 0 ⟨some "p".data, some "k".data, some "t".data⟩ (.rows []) true).io ∧
    (create_table_main 0 ⟨some "p".data, some "k".data, some "t".data⟩ (.rows []) true).msgs
        ≠ [] :=
  C7_empty_is_success 0 ⟨some "p".data, some "k".data, some "t".data⟩ [] true rfl rfl rfl
    (Or.inl rfl)
